import Mathlib

/-!
Verification of the three-stage audio data-preparation pipeline
(ingestion, normalization, transcription) of the voice-accent repository.

The embedding models the pure decision logic of the three scripts:
`scripts/ingest_audio.py`, `scripts/process_audio.py`,
`scripts/transcribe_audio.py`. File-system state is made explicit
(staged names as a list, transcript records as optional content/mtime
pairs); audio samples are rationals; the external loudness meter and
the gain it induces are an abstract parameter, since only the stages
around it (duration gate, scaling, clipping) are the repository's code.
-/

namespace VoiceAccent

/-! ### Ingestion (scripts/ingest_audio.py) -/

/-- A raw audio file discovered under the intake tree.  `tag` is the
immediate parent folder name (`folder_mapping` in the script, falling
back to "unknown" for files directly at the intake root); `fname` is
the original filename `src.name`. -/
structure RawFile where
  tag : String
  fname : String
deriving DecidableEq

/-- Destination name derived at ingest_audio.py:54,
`new_name = f"{folder_name}-{src.name}"`. -/
def destName (f : RawFile) : String :=
  f.tag ++ "-" ++ f.fname

/-- The copy loop of `ingest_audio_files` (ingest_audio.py:48-65) over the
discovered files: `staged` is the set of names present in the output
directory; a file whose destination name already exists is skipped,
otherwise it is copied (name added) and counted.  Returns the staged
names after the run and the number of files copied. -/
def ingest_audio_files : List RawFile → List String → List String × Nat
  | [], staged => (staged, 0)
  | f :: rest, staged =>
    if destName f ∈ staged then
      ingest_audio_files rest staged
    else
      let r := ingest_audio_files rest (staged ++ [destName f])
      (r.1, r.2 + 1)

/-! ### Normalizer (scripts/process_audio.py) -/

/-- A staged audio file, split as pathlib does into stem and extension
(suffix including the leading dot). -/
structure StagedFile where
  stem : String
  ext : String
deriving DecidableEq

/-- Extensions staged by ingestion, `audio_exts` at ingest_audio.py:29
(glob patterns, here kept as the extension each pattern matches). -/
def audio_exts : List String :=
  [".wav", ".mp3", ".flac", ".m4a", ".ogg"]

/-- Discovery step of `process_audio_files` (process_audio.py:37):
`list(raw_dir.glob('*.wav')) + list(raw_dir.glob('*.mp3'))`. -/
def normalizerSelects (f : StagedFile) : Bool :=
  f.ext == ".wav" || f.ext == ".mp3"

/-- Hard clip at process_audio.py:56, `np.clip(y_norm, -1.0, 1.0)`,
applied samplewise. -/
def clip (x : ℚ) : ℚ :=
  max (-1) (min 1 x)

/-- Per-file body of `process_audio_files` (process_audio.py:47-65) after
decoding `y` at 16 kHz mono.  The duration gate is
`if len(y) > 16000 * 2`.  `pyln.normalize.loudness(y, loudness, -23.0)`
multiplies the whole signal by one gain derived from the measured
loudness; the meter and the dB arithmetic live in the external
pyloudnorm library, so the gain is abstracted as a function `gain` of
the decoded signal.  The scaled samples are then clipped.  `none` means
the file is skipped (too short) and no output is written. -/
def process_file (gain : List ℚ → ℚ) (y : List ℚ) : Option (List ℚ) :=
  if 16000 * 2 < y.length then
    some (y.map (fun s => clip (gain y * s)))
  else
    none

/-- Output naming at process_audio.py:59,
`out_path = processed_dir / f"{audio_file.stem}_processed.wav"`. -/
def normOutName (f : StagedFile) : String :=
  f.stem ++ "_processed.wav"

/-- The output file of the normalizer, split into stem and extension:
the written name `{stem}_processed.wav` has stem `{stem}_processed`
and extension `.wav`. -/
def normOutFile (f : StagedFile) : StagedFile :=
  ⟨f.stem ++ "_processed", ".wav"⟩

/-! ### Transcriber (scripts/transcribe_audio.py) -/

/-- Per-file body of `transcribe_audio_files` (transcribe_audio.py:46-71).
A transcript record is its serialized content together with its
last-modified time; `none` means no record exists yet.  The freshness
check at line 52 is
`transcript_file.exists() and transcript_file.stat().st_mtime >= audio_file.stat().st_mtime`.
`run` is the loaded recognition model serialized to the JSON written at
lines 61-68 (deterministic in the audio file), `now` the write time.
Returns the record after the step and whether the file was skipped. -/
def transcribe_step (run : String → String) (now : Nat) (audio : String)
    (aMtime : Nat) (record : Option (String × Nat)) :
    Option (String × Nat) × Bool :=
  match record with
  | some r =>
    if aMtime ≤ r.2 then (some r, true)
    else (some (run audio, now), false)
  | none => (some (run audio, now), false)

/-! ### Batch loops and CLI mains -/

/-- True on a per-file outcome that did not raise. -/
def succeeded {ε α : Type} : Except ε α → Bool
  | Except.ok _ => true
  | Except.error _ => false

/-- Shape shared by the per-file loops of all three stages
(ingest_audio.py:48-67, process_audio.py:44-68,
transcribe_audio.py:46-74): handle each file inside try/except, count
the successes, and on an exception log and continue with the remaining
files.  Returns the aggregate count the stage function reports. -/
def runBatch {α β : Type} (handle : α → Except String β) : List α → Nat
  | [] => 0
  | f :: rest =>
    match handle f with
    | Except.ok _ => runBatch handle rest + 1
    | Except.error _ => runBatch handle rest

/-- A per-file handler that fails on one specific filename, used to
exhibit failure isolation on a concrete batch. -/
def demoHandle : RawFile → Except String Unit :=
  fun r => if r.fname = "bad" then Except.error "copy failed" else Except.ok ()

/-- The `main` of ingest_audio.py:85-95: exit 1 if the raw directory is
missing, else run ingestion; any count (zero included) exits 0, an
escaping exception exits 1. -/
def ingest_main (rawDirExists : Bool) (run : Except String Nat) : Nat :=
  if rawDirExists then
    match run with
    | Except.ok _ => 0
    | Except.error _ => 1
  else 1

/-- The `main` of process_audio.py:81-93: exit 1 if the segments
directory is missing; else run processing and exit 1 when the processed
count is 0, else 0; an escaping exception exits 1. -/
def process_main (segmentsDirExists : Bool) (run : Except String Nat) : Nat :=
  if segmentsDirExists then
    match run with
    | Except.ok n => if n = 0 then 1 else 0
    | Except.error _ => 1
  else 1

/-- The `main` of transcribe_audio.py:94-104: exit 1 if the segments
directory is missing, else run transcription; any count (zero included)
exits 0, an escaping exception exits 1. -/
def transcribe_main (segmentsDirExists : Bool) (run : Except String Nat) : Nat :=
  if segmentsDirExists then
    match run with
    | Except.ok _ => 0
    | Except.error _ => 1
  else 1

/-! ### Theorems -/

/-- Names already staged survive an ingestion run. -/
theorem mem_ingest (files : List RawFile) (staged : List String) (x : String)
    (hx : x ∈ staged) : x ∈ (ingest_audio_files files staged).1 := by
  induction files generalizing staged with
  | nil => simpa [ingest_audio_files] using hx
  | cons f rest ih =>
    by_cases h : destName f ∈ staged
    · simpa [ingest_audio_files, h] using ih staged hx
    · simp only [ingest_audio_files, h, if_false]
      exact ih _ (by simp [hx])

/-- After an ingestion run every discovered file's destination name is
staged. -/
theorem dest_mem_ingest (files : List RawFile) (staged : List String) :
    ∀ f ∈ files, destName f ∈ (ingest_audio_files files staged).1 := by
  induction files generalizing staged with
  | nil => intro f hf; cases hf
  | cons g rest ih =>
    intro f hf
    by_cases h : destName g ∈ staged
    · rcases List.mem_cons.1 hf with rfl | hf
      · simpa [ingest_audio_files, h] using mem_ingest rest staged _ h
      · simpa [ingest_audio_files, h] using ih staged f hf
    · rcases List.mem_cons.1 hf with rfl | hf
      · simp only [ingest_audio_files, h, if_false]
        exact mem_ingest rest _ _ (by simp)
      · simp only [ingest_audio_files, h, if_false]
        exact ih _ f hf

/-- An ingestion run over files whose destinations are all staged copies
nothing and changes nothing. -/
theorem ingest_noop (files : List RawFile) (staged : List String)
    (h : ∀ f ∈ files, destName f ∈ staged) :
    ingest_audio_files files staged = (staged, 0) := by
  induction files with
  | nil => rfl
  | cons f rest ih =>
    have hf : destName f ∈ staged := h f (by simp)
    simp only [ingest_audio_files, hf, if_true]
    exact ih fun g hg => h g (by simp [hg])

/-- C1: ingestion is idempotent — a second run of `ingest_audio_files`
over the unchanged file list copies zero new files and leaves the
staged name set exactly as after the first run, because every
destination name already exists and is skipped. -/
theorem ingest_idempotent (files : List RawFile) (staged : List String) :
    ingest_audio_files files (ingest_audio_files files staged).1 =
      ((ingest_audio_files files staged).1, 0) :=
  ingest_noop files _ (dest_mem_ingest files staged)

/-- C1 witness: idempotence evaluated on a concrete intake tree starting
from an empty staging directory. -/
theorem ingest_idempotent_witness :
    ingest_audio_files [⟨"alice", "clip1.mp3"⟩, ⟨"bob", "clip1.mp3"⟩]
        (ingest_audio_files [⟨"alice", "clip1.mp3"⟩, ⟨"bob", "clip1.mp3"⟩] []).1 =
      ((ingest_audio_files [⟨"alice", "clip1.mp3"⟩, ⟨"bob", "clip1.mp3"⟩] []).1, 0) :=
  ingest_idempotent [⟨"alice", "clip1.mp3"⟩, ⟨"bob", "clip1.mp3"⟩] []

/-- C2 counterexample: the staged-name map is not collision-resistant as
claimed.  The assets (tag "a", file "b-c.wav") and (tag "a-b", file
"c.wav") differ in both provenance tag and original filename yet derive
the same staged name "a-b-c.wav". -/
theorem staged_name_collision :
    destName ⟨"a", "b-c.wav"⟩ = destName ⟨"a-b", "c.wav"⟩ ∧
    (RawFile.mk "a" "b-c.wav").tag ≠ (RawFile.mk "a-b" "c.wav").tag ∧
    (RawFile.mk "a" "b-c.wav").fname ≠ (RawFile.mk "a-b" "c.wav").fname := by
  refine ⟨by decide, by decide, by decide⟩

/-- C2 amended: the staged name `tag ++ "-" ++ fname` is deterministic
and injective in each argument separately — two assets with the same
filename but distinct tags never collide, and two assets with the same
tag but distinct filenames never collide.  (Assets differing in both
components can collide, as tags may contain the separator.) -/
theorem staged_name_injective_each_arg :
    (∀ t₁ t₂ f, destName ⟨t₁, f⟩ = destName ⟨t₂, f⟩ → t₁ = t₂) ∧
    (∀ t f₁ f₂, destName ⟨t, f₁⟩ = destName ⟨t, f₂⟩ → f₁ = f₂) := by
  constructor
  · intro t₁ t₂ f h
    have h' := congrArg String.data h
    simp only [destName, String.data_append] at h'
    have h'' := List.append_cancel_right h'
    have h3 := List.append_cancel_right h''
    exact String.ext h3
  · intro t f₁ f₂ h
    have h' := congrArg String.data h
    simp only [destName, String.data_append, List.append_assoc] at h'
    have h'' := List.append_cancel_left h'
    have h3 := List.append_cancel_left h''
    exact String.ext h3

/-- C2 amended witness: both injectivity directions instantiated at
concrete names. -/
theorem staged_name_injective_each_arg_witness :
    "alice" = "alice" ∧ "clip1.mp3" = "clip1.mp3" :=
  ⟨staged_name_injective_each_arg.1 "alice" "alice" "clip1.mp3" rfl,
   staged_name_injective_each_arg.2 "bob" "clip1.mp3" "clip1.mp3" rfl⟩

/-- C3: the duration gate rejects (skips, producing no output) exactly
the decoded clips whose length is at or below 2 seconds at 16 kHz
(32000 samples); a 1.9 s clip (30400 samples) is rejected and a 2.1 s
clip (33600 samples) is accepted, for any loudness gain. -/
theorem duration_gate :
    (∀ (gain : List ℚ → ℚ) (y : List ℚ),
        process_file gain y = none ↔ y.length ≤ 16000 * 2) ∧
    process_file (fun _ => 1) (List.replicate 30400 0) = none ∧
    (process_file (fun _ => 1) (List.replicate 33600 0)).isSome = true := by
  refine ⟨fun gain y => ?_, ?_, ?_⟩
  · unfold process_file
    by_cases h : 16000 * 2 < y.length
    · simp [h, Nat.not_le.2 h]
    · simp [h, Nat.not_lt.1 h]
  · unfold process_file
    rw [List.length_replicate, if_neg (by norm_num)]
  · unfold process_file
    rw [List.length_replicate, if_pos (by norm_num)]
    rfl

/-- C7 counterexample: for the staged file alice-clip1.mp3 the
normalizer's output is alice-clip1_processed.wav, whose stem
alice-clip1_processed differs from the staged stem alice-clip1, so the
staged stem is not preserved verbatim. -/
theorem norm_out_stem_not_preserved :
    (normOutFile ⟨"alice-clip1", ".mp3"⟩).stem ≠ "alice-clip1" ∧
    normOutName ⟨"alice-clip1", ".mp3"⟩ ≠ "alice-clip1.wav" := by
  constructor
  · intro h
    exact absurd (congrArg String.length h) (by decide)
  · intro h
    exact absurd (congrArg String.length h) (by decide)

/-- C7 amended: for every staged file with stem s, the normalizer's
output name is s ++ "_processed.wav" — the stem gains a fixed
"_processed" suffix rather than being preserved verbatim — and the
output name is still uniquely determined by and injective in the staged
stem, so the NormalizedAsset remains discoverable from the StagedAsset's
name. -/
theorem norm_out_name_determined_by_stem :
    (∀ f : StagedFile, normOutName f = f.stem ++ "_processed.wav" ∧
        normOutFile f = ⟨f.stem ++ "_processed", ".wav"⟩) ∧
    (∀ f g : StagedFile, normOutName f = normOutName g ↔ f.stem = g.stem) := by
  refine ⟨fun f => ⟨rfl, rfl⟩, fun f g => ⟨fun h => ?_, fun h => ?_⟩⟩
  · have h' := congrArg String.data h
    simp only [normOutName, String.data_append] at h'
    exact String.ext (List.append_cancel_right h')
  · simp [normOutName, h]

/-- C8: every sample written by the normalizer lies in [-1, 1]: whenever
`process_file` accepts an input, each output sample is the clipped
gained sample and the clip bounds it into the range, whatever the gain
and the input amplitudes. -/
theorem output_samples_clipped (gain : List ℚ → ℚ) (y out : List ℚ)
    (h : process_file gain y = some out) :
    ∀ s ∈ out, -1 ≤ s ∧ s ≤ 1 := by
  intro s hs
  unfold process_file at h
  by_cases hl : 16000 * 2 < y.length
  · simp only [hl, if_true, Option.some.injEq] at h
    subst h
    rcases List.mem_map.1 hs with ⟨a, _, rfl⟩
    refine ⟨le_max_left _ _, max_le (by norm_num) (min_le_left _ _)⟩
  · simp [hl] at h

/-- C8 witness: the amplitude bound evaluated through an accepted
concrete input — 32001 samples of amplitude 2 under unit gain clip to
amplitude 1, which lies in the range. -/
theorem output_samples_clipped_witness : (-1 : ℚ) ≤ 1 ∧ (1 : ℚ) ≤ 1 :=
  output_samples_clipped (fun _ => 1) (List.replicate 32001 2)
    (List.replicate 32001 1)
    (by
      unfold process_file
      rw [List.length_replicate, if_pos (by norm_num), List.map_replicate]
      norm_num [clip])
    1 (by rw [List.mem_replicate]; exact ⟨by norm_num, rfl⟩)

/-- C10: the normalizer's discovery selects only files with extension
.wav or .mp3; a staged file with extension .flac, .m4a or .ogg — all of
which ingestion stages, being in audio_exts — is never selected, so it
is never read or normalized. -/
theorem normalizer_ignores_other_exts (f : StagedFile)
    (h : f.ext = ".flac" ∨ f.ext = ".m4a" ∨ f.ext = ".ogg") :
    f.ext ∈ audio_exts ∧ normalizerSelects f = false := by
  rcases h with h | h | h <;> simp [normalizerSelects, audio_exts, h]

/-- C10 witness: a staged .flac file is in the ingestion extension list
yet excluded by the normalizer's discovery. -/
theorem normalizer_ignores_other_exts_witness :
    (StagedFile.mk "alice-clip2" ".flac").ext ∈ audio_exts ∧
      normalizerSelects ⟨"alice-clip2", ".flac"⟩ = false :=
  normalizer_ignores_other_exts ⟨"alice-clip2", ".flac"⟩ (Or.inl rfl)

/-- C4: transcription freshness — when a transcript record exists with
last-modified time at or after the audio's, the step skips and leaves
the record identical; when the record is absent or strictly older than
the audio, the step regenerates it (new content from the model, new
write time). -/
theorem transcription_freshness :
    (∀ (run : String → String) (now : ℕ) (audio : String) (aM : ℕ)
        (c : String) (tM : ℕ), aM ≤ tM →
        transcribe_step run now audio aM (some (c, tM)) = (some (c, tM), true)) ∧
    (∀ (run : String → String) (now : ℕ) (audio : String) (aM : ℕ)
        (c : String) (tM : ℕ), tM < aM →
        transcribe_step run now audio aM (some (c, tM)) =
          (some (run audio, now), false)) ∧
    (∀ (run : String → String) (now : ℕ) (audio : String) (aM : ℕ),
        transcribe_step run now audio aM none = (some (run audio, now), false)) := by
  refine ⟨fun run now audio aM c tM h => ?_, fun run now audio aM c tM h => ?_,
    fun run now audio aM => rfl⟩
  · simp [transcribe_step, h]
  · simp [transcribe_step, Nat.not_le.2 h]

/-- C4 witness: a record written at time 5 over audio modified at time 3
is skipped and kept byte-identical; the same record over audio modified
at time 8 is regenerated with the model's output and the new write
time. -/
theorem transcription_freshness_witness :
    transcribe_step (fun _ => "new text") 9 "alice-clip1.wav" 3
        (some ("old text", 5)) = (some ("old text", 5), true) ∧
    transcribe_step (fun _ => "new text") 9 "alice-clip1.wav" 8
        (some ("old text", 5)) = (some ("new text", 9), false) :=
  ⟨transcription_freshness.1 (fun _ => "new text") 9 "alice-clip1.wav" 3
      "old text" 5 (by norm_num),
   transcription_freshness.2.1 (fun _ => "new text") 9 "alice-clip1.wav" 8
      "old text" 5 (by norm_num)⟩

/-- Batch count over an appended list splits. -/
theorem runBatch_append {α β : Type} (handle : α → Except String β)
    (xs ys : List α) :
    runBatch handle (xs ++ ys) = runBatch handle xs + runBatch handle ys := by
  induction xs with
  | nil => simp [runBatch]
  | cons x rest ih =>
    cases hx : handle x
    · simp [runBatch, hx, ih]
    · simp [runBatch, hx, ih]
      omega

/-- C5: per-file failure isolation in the stages' batch loops — a file
whose handler raises contributes nothing but does not prevent the files
after it from being processed (the batch count is the sum of the counts
around it); the returned count is exactly the number of files whose
handler succeeds; and a run over an empty batch returns the valid count
0, which ingestion's main turns into a success exit. -/
theorem batch_failure_isolation :
    (∀ (handle : RawFile → Except String Unit) (xs ys : List RawFile)
        (f : RawFile) (e : String), handle f = Except.error e →
        runBatch handle (xs ++ f :: ys) =
          runBatch handle xs + runBatch handle ys) ∧
    (∀ (handle : RawFile → Except String Unit) (l : List RawFile),
        runBatch handle l = (l.filter (fun f => succeeded (handle f))).length) ∧
    (∀ handle : RawFile → Except String Unit, runBatch handle [] = 0) ∧
    ingest_main true (Except.ok 0) = 0 := by
  refine ⟨fun handle xs ys f e hf => ?_, fun handle l => ?_, fun handle => rfl, rfl⟩
  · rw [runBatch_append]
    simp [runBatch, hf]
  · induction l with
    | nil => rfl
    | cons x rest ih =>
      cases hx : handle x <;> simp [runBatch, hx, succeeded, ih]

/-- C5 witness: in a three-file batch whose middle file fails to copy,
the two surrounding files are both processed and counted; the failure
is isolated. -/
theorem batch_failure_isolation_witness :
    runBatch demoHandle ([⟨"alice", "a.mp3"⟩] ++ ⟨"alice", "bad"⟩ :: [⟨"bob", "b.mp3"⟩]) =
      runBatch demoHandle [⟨"alice", "a.mp3"⟩] + runBatch demoHandle [⟨"bob", "b.mp3"⟩] :=
  batch_failure_isolation.1 demoHandle [⟨"alice", "a.mp3"⟩] [⟨"bob", "b.mp3"⟩]
    ⟨"alice", "bad"⟩ "copy failed" (by simp [demoHandle])

/-- C6 counterexample: the normalizer's main does not exit 0 on a run
with nothing to do — with the input directory present and a successful
run that processed zero files, process_audio.py's main returns 1. -/
theorem process_main_zero_exits_nonzero :
    process_main true (Except.ok 0) = 1 ∧ process_main true (Except.ok 0) ≠ 0 :=
  ⟨rfl, by decide⟩

/-- C6 amended: every stage's main exits 1 when its required input
directory is missing and 1 when the whole batch raises; the ingestion
and transcription mains exit 0 on any successful run, a zero count
included, but the normalizer's main exits 0 on a successful run exactly
when at least one file was processed — it treats a zero-file run as a
failure exit. -/
theorem cli_exit_codes :
    (∀ r : Except String Nat,
        ingest_main false r = 1 ∧ process_main false r = 1 ∧
          transcribe_main false r = 1) ∧
    (∀ e : String,
        ingest_main true (Except.error e) = 1 ∧
          process_main true (Except.error e) = 1 ∧
          transcribe_main true (Except.error e) = 1) ∧
    (∀ n : Nat, ingest_main true (Except.ok n) = 0 ∧
        transcribe_main true (Except.ok n) = 0) ∧
    (∀ n : Nat, process_main true (Except.ok n) = 0 ↔ 0 < n) := by
  refine ⟨fun r => ⟨rfl, rfl, rfl⟩, fun e => ⟨rfl, rfl, rfl⟩,
    fun n => ⟨rfl, rfl⟩, fun n => ?_⟩
  cases n <;> simp [process_main]

end VoiceAccent
